import Mathlib

/-!
Shallow embedding of the `keccak-const` crate (`src/keccak.rs`): the
Keccak-f[1600] permutation, the sponge context (`KeccakState`), and the
squeeze cursor (`XofReader`).  Machine `u64`/`u8` values are modelled as
`Nat` kept below `2^64` / `2^8`; the 200-byte state is a `List Nat` of
length 200; lanes are a `List Nat` of length 25 indexed by `x + 5*y`.
-/

set_option maxRecDepth 100000

def LANE_DIAM : Nat := 5

def STATE_WIDTH : Nat := 200

/-- 64-bit left rotation (Rust `u64::rotate_left`, which reduces the
rotation amount modulo 64). -/
def rotl64 (v n : Nat) : Nat :=
  let k := n % 64
  ((v <<< k) ||| (v >>> (64 - k))) % (2 ^ 64)

/-- Lane lookup at coordinates `(x, y)`, index `x + 5*y` as in the source's
`8 * (x + LANE_DIAM * y)` byte layout. -/
def getLane (lanes : List Nat) (x y : Nat) : Nat :=
  lanes.getD (x + 5 * y) 0

/-- Lane update at coordinates `(x, y)`. -/
def setLane (lanes : List Nat) (x y v : Nat) : List Nat :=
  lanes.set (x + 5 * y) v

/-- θ step: column parities `C`, then `D[x] = C[x+4 mod 5] ^ rotl(C[x+1 mod 5], 1)`,
XORed into every lane of column `x`. -/
def theta (lanes : List Nat) : List Nat :=
  let c := (List.range 5).map fun x =>
    getLane lanes x 0 ^^^ getLane lanes x 1 ^^^ getLane lanes x 2 ^^^
      getLane lanes x 3 ^^^ getLane lanes x 4
  let d := (List.range 5).map fun x =>
    c.getD ((x + 4) % 5) 0 ^^^ rotl64 (c.getD ((x + 1) % 5) 0) 1
  (List.range 25).map fun i => lanes.getD i 0 ^^^ d.getD (i % 5) 0

/-- One step of the fused ρ/π loop: state is `(x, y, current, lanes)`;
mirrors `(x, y) = (y, (2x + 3y) % 5)` followed by
`(current, lanes[x][y]) = (lanes[x][y], current.rotate_left((t+1)*(t+2)/2))`. -/
def rhoPiStep (s : Nat × Nat × Nat × List Nat) (t : Nat) : Nat × Nat × Nat × List Nat :=
  let x := s.2.1
  let y := (2 * s.1 + 3 * s.2.1) % 5
  (x, y, getLane s.2.2.2 x y,
    setLane s.2.2.2 x y (rotl64 s.2.2.1 ((t + 1) * (t + 2) / 2)))

/-- ρ and π fused, 24 steps starting from lane (1,0) with a rolling
`current` register. -/
def rhoPi (lanes : List Nat) : List Nat :=
  ((List.range 24).foldl rhoPiStep (1, 0, getLane lanes 1 0, lanes)).2.2.2

/-- χ step: each row is snapshotted, then
`lanes[x][y] = t[x] ^ (!t[x+1 mod 5] & t[x+2 mod 5])`.  Complement of a
64-bit value `v` is `v ^^^ (2^64 - 1)`. -/
def chi (lanes : List Nat) : List Nat :=
  (List.range 25).map fun i =>
    let x := i % 5
    let y := i / 5
    getLane lanes x y ^^^
      ((getLane lanes ((x + 1) % 5) y ^^^ (2 ^ 64 - 1)) &&& getLane lanes ((x + 2) % 5) y)

/-- One advance of the 8-bit LFSR: `r = ((r << 1) ^ ((r >> 7) * 0x71)) % 256`. -/
def lfsrStep (r : Nat) : Nat :=
  ((r <<< 1) ^^^ ((r >>> 7) * 0x71)) % 256

/-- One of the seven per-round ι sub-steps: advance the LFSR and, when bit 1
of `r` is set, XOR bit `2^j - 1` into the accumulated lane value. -/
def iotaStep (p : Nat × Nat) (j : Nat) : Nat × Nat :=
  let r := lfsrStep p.1
  (r, if r &&& 2 ≠ 0 then p.2 ^^^ (1 <<< ((1 <<< j) - 1)) else p.2)

/-- ι step: seven LFSR advances folding into lane (0,0); returns the updated
LFSR state together with the updated lanes. -/
def iota (r : Nat) (lanes : List Nat) : Nat × List Nat :=
  let p := (List.range 7).foldl iotaStep (r, getLane lanes 0 0)
  (p.1, setLane lanes 0 0 p.2)

/-- One full round of Keccak-f[1600] on lanes, threading the LFSR state. -/
def keccakRound (s : Nat × List Nat) (_i : Nat) : Nat × List Nat :=
  iota s.1 (chi (rhoPi (theta s.2)))

/-- The 24 rounds of Keccak-f[1600] on the 5×5 lane grid, with the LFSR
seeded to 1 once at the start of the whole permutation. -/
def keccak_f1600_on_lanes (lanes : List Nat) : List Nat :=
  ((List.range 24).foldl keccakRound (1, lanes)).2

/-- Load lane from 8 consecutive little-endian bytes at `start`
(`u64::from_le_bytes`). -/
def loadLane (state : List Nat) (start : Nat) : Nat :=
  (List.range 8).foldr (fun z acc => state.getD (start + z) 0 + 256 * acc) 0

/-- Byte buffer to lane grid: lane `x + 5*y` is read from bytes
`8*(x + 5*y) ..`. -/
def bytesToLanes (state : List Nat) : List Nat :=
  (List.range 25).map fun i => loadLane state (8 * i)

/-- Lane grid back to the 200-byte buffer (`u64::to_le_bytes`). -/
def lanesToBytes (lanes : List Nat) : List Nat :=
  (List.range 200).map fun k => (lanes.getD (k / 8) 0 >>> (8 * (k % 8))) % 256

/-- The Keccak-f[1600] permutation on the 200-byte state. -/
def keccak_f1600 (state : List Nat) : List Nat :=
  lanesToBytes (keccak_f1600_on_lanes (bytesToLanes state))

/-- Extendable-output function reader (squeeze cursor). -/
structure XofReader where
  state : List Nat
  pos : Nat
  rate_in_bytes : Nat
  deriving DecidableEq, Repr

/-- Sponge context. -/
structure KeccakState where
  rate_in_bytes : Nat
  state : List Nat
  pos : Nat
  delimiter : Nat
  deriving DecidableEq, Repr

/-- `KeccakState::new`: rate is `200 - security_bits / 4` bytes, state all
zeroes, position 0. -/
def KeccakState.new (security_bits delimiter : Nat) : KeccakState :=
  { rate_in_bytes := STATE_WIDTH - security_bits / 4
    delimiter := delimiter
    state := List.replicate STATE_WIDTH 0
    pos := 0 }

/-- One iteration of the `update` loop body: XOR the byte into
`state[pos]`, advance `pos`, and permute/reset when `pos` reaches the rate. -/
def absorbByte (s : KeccakState) (b : Nat) : KeccakState :=
  let st := s.state.set s.pos (s.state.getD s.pos 0 ^^^ b)
  if s.pos + 1 = s.rate_in_bytes then
    { s with state := keccak_f1600 st, pos := 0 }
  else
    { s with state := st, pos := s.pos + 1 }

/-- `KeccakState::update`: absorb the input bytes one at a time. -/
def KeccakState.update (s : KeccakState) (input : List Nat) : KeccakState :=
  input.foldl absorbByte s

/-- `KeccakState::finalize`: multi-rate padding and transition to the
squeezing phase. -/
def KeccakState.finalize (s : KeccakState) : XofReader :=
  let st := s.state.set s.pos (s.state.getD s.pos 0 ^^^ s.delimiter)
  let st := if s.delimiter &&& 0x80 ≠ 0 ∧ s.pos = s.rate_in_bytes - 1 then
    keccak_f1600 st
  else st
  let st := st.set (s.rate_in_bytes - 1) (st.getD (s.rate_in_bytes - 1) 0 ^^^ 0x80)
  { state := keccak_f1600 st, rate_in_bytes := s.rate_in_bytes, pos := 0 }

/-- One iteration of the `read` loop body: emit `state[pos]`, advance `pos`,
and permute/reset when `pos` reaches the rate. -/
def readStep (r : XofReader) : XofReader × Nat :=
  let b := r.state.getD r.pos 0
  if r.pos + 1 = r.rate_in_bytes then
    ({ r with state := keccak_f1600 r.state, pos := 0 }, b)
  else
    ({ r with pos := r.pos + 1 }, b)

/-- `XofReader::read`: emit `n` bytes, returning the advanced cursor and the
output buffer. -/
def XofReader.read (r : XofReader) : Nat → XofReader × List Nat
  | 0 => (r, [])
  | n + 1 =>
    let p := readStep r
    let q := p.1.read n
    (q.1, p.2 :: q.2)

/-- The `Keccak256` binding: security 256, delimiter `0x01`, digest 32 bytes. -/
def keccak256 (input : List Nat) : List Nat :=
  ((((KeccakState.new 256 0x01).update input).finalize).read 32).2

/-- The `Keccak512` binding: security 512, delimiter `0x01`, digest 64 bytes. -/
def keccak512 (input : List Nat) : List Nat :=
  ((((KeccakState.new 512 0x01).update input).finalize).read 64).2

/-- The `Shake256` binding: security 256, delimiter `0x1f`, caller-chosen
output length. -/
def shake256 (input : List Nat) (n : Nat) : List Nat :=
  ((((KeccakState.new 256 0x1f).update input).finalize).read n).2

/-- Spec wording, §4.3 step 1: XOR the delimiter into `state[position]`. -/
def padDelimiter (st : List Nat) (pos delim : Nat) : List Nat :=
  st.set pos (st.getD pos 0 ^^^ delim)

/-- Spec wording, §4.3 step 2 condition: the delimiter's top bit `0x80` is
set and the delimiter byte lands on the last byte of the rate window. -/
def delimiterCollides (delim pos rate : Nat) : Prop :=
  delim &&& 0x80 ≠ 0 ∧ pos = rate - 1

instance (delim pos rate : Nat) : Decidable (delimiterCollides delim pos rate) := by
  unfold delimiterCollides
  infer_instance

/-- Spec wording, §4.3 step 3: XOR `0x80` into `state[rate_in_bytes − 1]`. -/
def padClose (st : List Nat) (rate : Nat) : List Nat :=
  st.set (rate - 1) (st.getD (rate - 1) 0 ^^^ 0x80)

/-- Finalization as worded by the spec: delimiter injection, the
conditional extra permutation, the closing `0x80` bit, one final
permutation, and a cursor starting at position 0. -/
def finalizeSpec (s : KeccakState) : XofReader :=
  let st1 := padDelimiter s.state s.pos s.delimiter
  let st2 := if delimiterCollides s.delimiter s.pos s.rate_in_bytes then keccak_f1600 st1 else st1
  let st3 := padClose st2 s.rate_in_bytes
  { state := keccak_f1600 st3, rate_in_bytes := s.rate_in_bytes, pos := 0 }

/-- The LFSR advanced `n` times. -/
def lfsrIter (r : Nat) : Nat → Nat
  | 0 => r
  | n + 1 => lfsrIter (lfsrStep r) n

/-- The round constant produced by seven ι sub-steps starting from LFSR
state `r` (the value the ι step XORs into lane (0,0)). -/
def rcFrom (r : Nat) : Nat :=
  ((List.range 7).foldl iotaStep (r, 0)).2

/-- The round constant of round `i` when the LFSR is seeded to 1 once at the
start of the permutation and advanced 7 times per round. -/
def roundConstant (i : Nat) : Nat :=
  rcFrom (lfsrIter 1 (7 * i))

/-- The published Keccak-f[1600] round-constant table, rounds 0..23
(decimal values of the standard constants RC[0]..RC[23]). -/
def standardRC : List Nat :=
  [1,
   32898,
   9223372036854808714,
   9223372039002292224,
   32907,
   2147483649,
   9223372039002292353,
   9223372036854808585,
   138,
   136,
   2147516425,
   2147483658,
   2147516555,
   9223372036854775947,
   9223372036854808713,
   9223372036854808579,
   9223372036854808578,
   9223372036854775936,
   32778,
   9223372039002259466,
   9223372039002292353,
   9223372036854808704,
   2147483649,
   9223372039002292232]

/-- The bytes of the ASCII string "Rescue-XLIX". -/
def rescueXLIX : List Nat := [82, 101, 115, 99, 117, 101, 45, 88, 76, 73, 88]

/-- π position map: `(x, y) ↦ (y, (2x + 3y) mod 5)`. -/
def piStepPos (p : Nat × Nat) : Nat × Nat :=
  (p.2, (2 * p.1 + 3 * p.2) % 5)

/-- The position visited at step `t` of the fused ρ/π loop, starting
from (1, 0). -/
def piPos : Nat → Nat × Nat
  | 0 => (1, 0)
  | t + 1 => piStepPos (piPos t)

/-- One step of ρ/π as worded by the spec with the rotation offset the code
actually uses: at 0-indexed step `t`, the lane value found at `piPos t` in
the original grid is relocated to `piPos (t+1)` while left-rotated
by `(t+1)(t+2)/2`. -/
def rhoPiSpecStep (lanes acc : List Nat) (t : Nat) : List Nat :=
  setLane acc (piPos (t + 1)).1 (piPos (t + 1)).2
    (rotl64 (getLane lanes (piPos t).1 (piPos t).2) ((t + 1) * (t + 2) / 2))

/-- ρ/π as worded by the spec (with the code's rotation offsets): 24
relocate-and-rotate steps. -/
def rhoPiSpec (lanes : List Nat) : List Nat :=
  (List.range 24).foldl (rhoPiSpecStep lanes) lanes

/-- ρ/π as literally worded by the claim: rotation offset `t(t+1)/2` at the
0-indexed step counter `t`. -/
def rhoPiClaim (lanes : List Nat) : List Nat :=
  (List.range 24).foldl
    (fun acc t =>
      setLane acc (piPos (t + 1)).1 (piPos (t + 1)).2
        (rotl64 (getLane lanes (piPos t).1 (piPos t).2) (t * (t + 1) / 2)))
    lanes

/-- Well-formedness of a sponge context: 200-byte state, position strictly
inside the rate window, byte rate at most the state width. -/
def WFstate (s : KeccakState) : Prop :=
  s.state.length = 200 ∧ s.pos < s.rate_in_bytes ∧ s.rate_in_bytes ≤ 200

/-- Well-formedness of a squeeze cursor. -/
def WFreader (r : XofReader) : Prop :=
  r.state.length = 200 ∧ r.pos < r.rate_in_bytes ∧ r.rate_in_bytes ≤ 200

instance (s : KeccakState) : Decidable (WFstate s) := by
  unfold WFstate
  infer_instance

instance (r : XofReader) : Decidable (WFreader r) := by
  unfold WFreader
  infer_instance

/-- C1: the full pipeline reproduces the published known-answer vectors:
Keccak-256 of the empty input, Keccak-512 of the empty input, and the first
10 SHAKE256 output bytes for the input "Rescue-XLIX". -/
theorem known_answer_vectors :
    keccak256 [] =
      [0xc5, 0xd2, 0x46, 0x01, 0x86, 0xf7, 0x23, 0x3c, 0x92, 0x7e, 0x7d, 0xb2, 0xdc, 0xc7,
       0x03, 0xc0, 0xe5, 0x00, 0xb6, 0x53, 0xca, 0x82, 0x27, 0x3b, 0x7b, 0xfa, 0xd8, 0x04,
       0x5d, 0x85, 0xa4, 0x70] ∧
    keccak512 [] =
      [0x0e, 0xab, 0x42, 0xde, 0x4c, 0x3c, 0xeb, 0x92, 0x35, 0xfc, 0x91, 0xac, 0xff, 0xe7,
       0x46, 0xb2, 0x9c, 0x29, 0xa8, 0xc3, 0x66, 0xb7, 0xc6, 0x0e, 0x4e, 0x67, 0xc4, 0x66,
       0xf3, 0x6a, 0x43, 0x04, 0xc0, 0x0f, 0xa9, 0xca, 0xf9, 0xd8, 0x79, 0x76, 0xba, 0x46,
       0x9b, 0xcb, 0xe0, 0x67, 0x13, 0xb4, 0x35, 0xf0, 0x91, 0xef, 0x27, 0x69, 0xfb, 0x16,
       0x0c, 0xda, 0xb3, 0x3d, 0x36, 0x70, 0x68, 0x0e] ∧
    shake256 rescueXLIX 10 = [192, 33, 251, 3, 222, 123, 6, 0, 132, 72] := by
  refine ⟨by decide, by decide, by decide⟩

/-- C2: absorption is streaming-equivalent to concatenation: updating with
`a` then `b` equals updating with `a ++ b`, and hence for every variant
parameterization the digest of one absorb call of `a ++ b` equals that of
two absorb calls of `a` then `b`. -/
theorem update_append (s : KeccakState) (a b : List Nat) :
    ((s.update a).update b = s.update (a ++ b)) ∧
    ∀ sec delim n : Nat,
      (((((KeccakState.new sec delim).update a).update b).finalize).read n).2 =
        ((((KeccakState.new sec delim).update (a ++ b)).finalize).read n).2 := by
  constructor
  · simp [KeccakState.update, List.foldl_append]
  · intro sec delim n
    simp [KeccakState.update, List.foldl_append]

theorem read_length : ∀ (n : Nat) (r : XofReader), ((r.read n).2).length = n := by
  intro n
  induction n with
  | zero => intro r; rfl
  | succ k ih =>
    intro r
    simp [XofReader.read, ih]

theorem read_add : ∀ (n : Nat) (r : XofReader) (m : Nat),
    r.read (n + m) = ((((r.read n).1).read m).1, (r.read n).2 ++ (((r.read n).1).read m).2) := by
  intro n
  induction n with
  | zero =>
    intro r m
    simp [XofReader.read]
  | succ k ih =>
    intro r m
    have hm : k + 1 + m = (k + m) + 1 := by omega
    rw [hm]
    simp only [XofReader.read, ih, List.cons_append]

/-- C3: prefix stability of the squeeze cursor: reading `n` bytes and then
`m` more yields a concatenation equal to a single `(n+m)`-byte read, the
advanced cursors agree, and the first `n` bytes of a long read from a fresh
finalized cursor equal a direct `n`-byte read from that cursor. -/
theorem read_prefix_stable (r : XofReader) (s : KeccakState) (n m : Nat) :
    ((r.read n).2 ++ (((r.read n).1).read m).2 = (r.read (n + m)).2) ∧
    ((((r.read n).1).read m).1 = (r.read (n + m)).1) ∧
    (((s.finalize).read n).2 = List.take n (((s.finalize).read (n + m)).2)) := by
  refine ⟨by rw [read_add], by rw [read_add], ?_⟩
  rw [read_add]
  exact (List.take_left' (read_length n s.finalize)).symm

/-- C10: zero-length operations are no-ops: updating with the empty input
returns the context unchanged, and reading 0 bytes returns the cursor
unchanged together with the empty buffer. -/
theorem zero_length_noop :
    (∀ s : KeccakState, s.update [] = s) ∧
    (∀ r : XofReader, r.read 0 = (r, [])) :=
  ⟨fun _ => rfl, fun _ => rfl⟩

/-- C4: finalize performs multi-rate padding in the spec's exact order:
delimiter XOR at `position`, one extra permutation exactly when the top bit
is set and `position = rate_in_bytes - 1`, the closing `0x80` XOR at
`rate_in_bytes - 1`, one more permutation, and a returned cursor at
position 0. -/
theorem finalize_padding_order (s : KeccakState) :
    s.finalize = finalizeSpec s ∧
    (delimiterCollides s.delimiter s.pos s.rate_in_bytes →
      s.finalize.state =
        keccak_f1600
          (padClose (keccak_f1600 (padDelimiter s.state s.pos s.delimiter)) s.rate_in_bytes)) ∧
    (¬ delimiterCollides s.delimiter s.pos s.rate_in_bytes →
      s.finalize.state =
        keccak_f1600 (padClose (padDelimiter s.state s.pos s.delimiter) s.rate_in_bytes)) ∧
    s.finalize.pos = 0 ∧
    s.finalize.rate_in_bytes = s.rate_in_bytes := by
  by_cases h : delimiterCollides s.delimiter s.pos s.rate_in_bytes
  · refine ⟨?_, fun _ => ?_, fun hc => absurd h hc, rfl, rfl⟩ <;>
      simp [KeccakState.finalize, finalizeSpec, padDelimiter, padClose, if_pos h,
        h.1, h.2, delimiterCollides]
  · refine ⟨?_, fun hc => absurd hc h, fun _ => ?_, rfl, rfl⟩ <;>
      · rw [delimiterCollides] at h
        simp [KeccakState.finalize, finalizeSpec, padDelimiter, padClose,
          delimiterCollides, if_neg h, h]

theorem finalize_padding_order_witness :
    (KeccakState.mk 136 (List.replicate 200 0) 135 0x81).finalize.state =
      keccak_f1600
        (padClose (keccak_f1600 (padDelimiter (List.replicate 200 0) 135 0x81)) 136) ∧
    (KeccakState.mk 136 (List.replicate 200 0) 0 0x06).finalize.state =
      keccak_f1600 (padClose (padDelimiter (List.replicate 200 0) 0 0x06) 136) :=
  ⟨(finalize_padding_order (KeccakState.mk 136 (List.replicate 200 0) 135 0x81)).2.1
      (by constructor <;> decide),
   (finalize_padding_order (KeccakState.mk 136 (List.replicate 200 0) 0 0x06)).2.2.1
      (by intro hc; exact absurd hc.1 (by decide))⟩

theorem foldl_iotaStep_xor : ∀ (js : List Nat) (r a b : Nat),
    (js.foldl iotaStep (r, a ^^^ b)).2 = a ^^^ (js.foldl iotaStep (r, b)).2 := by
  intro js
  induction js with
  | nil => intro r a b; rfl
  | cons j js ih =>
    intro r a b
    simp only [List.foldl_cons, iotaStep]
    by_cases h : lfsrStep r &&& 2 ≠ 0
    · simp only [if_pos h, Nat.xor_assoc]
      exact ih ..
    · simp only [if_neg h]
      exact ih ..

theorem iota_eq (r : Nat) (lanes : List Nat) :
    iota r lanes = (lfsrIter r 7, setLane lanes 0 0 (getLane lanes 0 0 ^^^ rcFrom r)) := by
  have h2 := foldl_iotaStep_xor (List.range 7) r (getLane lanes 0 0) 0
  rw [Nat.xor_zero] at h2
  show (((List.range 7).foldl iotaStep (r, getLane lanes 0 0)).1,
      setLane lanes 0 0 ((List.range 7).foldl iotaStep (r, getLane lanes 0 0)).2) = _
  rw [h2]
  rfl

theorem keccakRound_fst (p : Nat × List Nat) (i : Nat) :
    (keccakRound p i).1 = lfsrIter p.1 7 := rfl

theorem lfsrIter_add : ∀ (a r b : Nat), lfsrIter r (a + b) = lfsrIter (lfsrIter r a) b := by
  intro a
  induction a with
  | zero => intro r b; rw [Nat.zero_add]; rfl
  | succ k ih =>
    intro r b
    have h : k + 1 + b = (k + b) + 1 := by omega
    rw [h]
    show lfsrIter (lfsrStep r) (k + b) = _
    rw [ih]
    rfl

theorem rounds_lfsr_fst : ∀ (n : Nat) (lanes : List Nat),
    ((List.range n).foldl keccakRound (1, lanes)).1 = lfsrIter 1 (7 * n) := by
  intro n
  induction n with
  | zero => intro lanes; rfl
  | succ k ih =>
    intro lanes
    rw [List.range_succ, List.foldl_append, List.foldl_cons, List.foldl_nil,
      keccakRound_fst, ih lanes, ← lfsrIter_add]
    have h : 7 * k + 7 = 7 * (k + 1) := by ring
    rw [h]

/-- C5: the ι round constant is derived by the 8-bit LFSR seeded to 1 once
at the start of the whole permutation and advanced 7 times per round,
setting bit `2^j - 1` whenever bit 1 of `R` is set; this reproduces the
standard 24-entry Keccak round-constant table. -/
theorem iota_round_constants :
    (∀ (r : Nat) (lanes : List Nat),
      iota r lanes = (lfsrIter r 7, setLane lanes 0 0 (getLane lanes 0 0 ^^^ rcFrom r))) ∧
    (∀ (n : Nat) (lanes : List Nat),
      ((List.range n).foldl keccakRound (1, lanes)).1 = lfsrIter 1 (7 * n)) ∧
    (List.range 24).map roundConstant = standardRC :=
  ⟨iota_eq, rounds_lfsr_fst, by decide⟩

/-- C6 counterexample: with the rotation offset `t(t+1)/2` at 0-indexed
step `t`, as the claim states it, the fused ρ/π step disagrees with the
code on the lane grid whose only nonzero lane is a 1 at (1, 0): the code's
first step rotates by 1, the claim's formula by 0. -/
theorem rhoPi_claim_counterexample :
    rhoPi ((List.replicate 25 0).set 1 1) ≠ rhoPiClaim ((List.replicate 25 0).set 1 1) := by
  decide

theorem getLane_setLane_ne (l : List Nat) (x y x' y' v : Nat)
    (h : x + 5 * y ≠ x' + 5 * y') :
    getLane (setLane l x y v) x' y' = getLane l x' y' := by
  unfold getLane setLane
  simp [List.getD_eq_getElem?_getD, List.getElem?_set_ne h]

theorem piPos_idx_ne : ∀ k < 24, ∀ t < k,
    (piPos (t + 1)).1 + 5 * (piPos (t + 1)).2 ≠
      (piPos (k + 1)).1 + 5 * (piPos (k + 1)).2 := by decide

theorem getLane_specFold (lanes : List Nat) : ∀ (k x y : Nat),
    (∀ t < k, (piPos (t + 1)).1 + 5 * (piPos (t + 1)).2 ≠ x + 5 * y) →
    getLane ((List.range k).foldl (rhoPiSpecStep lanes) lanes) x y = getLane lanes x y := by
  intro k
  induction k with
  | zero => intro x y _; rfl
  | succ j ih =>
    intro x y h
    rw [List.range_succ, List.foldl_append, List.foldl_cons, List.foldl_nil, rhoPiSpecStep,
      getLane_setLane_ne _ _ _ _ _ _ (h j (Nat.lt_succ_self j))]
    exact ih x y fun t ht => h t (by omega)

theorem rhoPi_fold_inv (lanes : List Nat) : ∀ k, k ≤ 24 →
    (List.range k).foldl rhoPiStep (1, 0, getLane lanes 1 0, lanes) =
      ((piPos k).1, (piPos k).2, getLane lanes (piPos k).1 (piPos k).2,
        (List.range k).foldl (rhoPiSpecStep lanes) lanes) := by
  intro k
  induction k with
  | zero => intro _; rfl
  | succ j ih =>
    intro hk
    rw [List.range_succ, List.foldl_append, List.foldl_cons, List.foldl_nil,
      List.foldl_append, List.foldl_cons, List.foldl_nil, ih (by omega)]
    have hp : piPos (j + 1) = ((piPos j).2, (2 * (piPos j).1 + 3 * (piPos j).2) % 5) := rfl
    rw [hp]
    simp only [rhoPiStep, rhoPiSpecStep, hp, Prod.mk.injEq, and_true, true_and,
      and_self, eq_self_iff_true]
    exact getLane_specFold lanes j (piPos j).2 ((2 * (piPos j).1 + 3 * (piPos j).2) % 5)
      fun t ht => by
        have := piPos_idx_ne j (by omega) t ht
        rw [hp] at this
        exact this

/-- C6 amended: starting from lane (1, 0), each of the 24 fused ρ/π steps
relocates the current lane to `(y, 2x + 3y mod 5)` while left-rotating its
64-bit value by the triangular offset `(t+1)(t+2)/2`, where `t` is the
0-indexed step counter (equivalently `t(t+1)/2` for a 1-indexed counter),
using a single rolling current-value register. -/
theorem rhoPi_relocation_rotation (lanes : List Nat) :
    rhoPi lanes = rhoPiSpec lanes := by
  have h := congrArg (fun p : Nat × Nat × Nat × List Nat => p.2.2.2)
    (rhoPi_fold_inv lanes 24 (by omega))
  simpa only [rhoPi, rhoPiSpec] using h

/-- C7 counterexample: construction never fails fast: with
`security_bits = 222` the implied capacity `2·222` and rate
`8·(200 − 222/4)` do not sum to 1600, yet `new` silently produces a
context. -/
theorem new_no_config_check :
    8 * (KeccakState.new 222 6).rate_in_bytes + 2 * 222 ≠ 1600 ∧
    KeccakState.new 222 6 =
      { rate_in_bytes := 145, state := List.replicate 200 0, pos := 0, delimiter := 6 } := by
  refine ⟨by decide, by decide⟩

/-- C7 amended: construction is total and never fails; it always returns
the context with rate `200 − security_bits/4`, zero state and position 0,
and whenever `security_bits` is a multiple of 4 at most 800 (as in all
eleven published bindings) the invariant `rate + capacity = 1600` holds by
construction, the rate being a whole number of bytes. -/
theorem new_total_valid (sec delim : Nat) (h4 : sec % 4 = 0) (h800 : sec ≤ 800) :
    KeccakState.new sec delim =
      { rate_in_bytes := 200 - sec / 4, state := List.replicate 200 0, pos := 0,
        delimiter := delim } ∧
    8 * (KeccakState.new sec delim).rate_in_bytes + 2 * sec = 1600 := by
  refine ⟨rfl, ?_⟩
  show 8 * (200 - sec / 4) + 2 * sec = 1600
  omega

theorem new_total_valid_witness :
    KeccakState.new 256 1 =
      { rate_in_bytes := 200 - 256 / 4, state := List.replicate 200 0, pos := 0,
        delimiter := 1 } ∧
    8 * (KeccakState.new 256 1).rate_in_bytes + 2 * 256 = 1600 :=
  new_total_valid 256 1 (by decide) (by decide)

theorem absorbByte_pos (s : KeccakState) (b : Nat) (h : s.pos < s.rate_in_bytes) :
    (absorbByte s b).pos < (absorbByte s b).rate_in_bytes ∧
    (absorbByte s b).rate_in_bytes = s.rate_in_bytes := by
  unfold absorbByte
  by_cases hc : s.pos + 1 = s.rate_in_bytes
  · simp only [if_pos hc]
    exact ⟨by omega, trivial⟩
  · simp only [if_neg hc]
    exact ⟨by omega, trivial⟩

theorem update_pos_invariant : ∀ (input : List Nat) (s : KeccakState),
    s.pos < s.rate_in_bytes →
    (s.update input).pos < (s.update input).rate_in_bytes ∧
    (s.update input).rate_in_bytes = s.rate_in_bytes := by
  intro input
  induction input with
  | nil => intro s h; exact ⟨h, rfl⟩
  | cons b bs ih =>
    intro s h
    have ha := absorbByte_pos s b h
    have hb := ih (absorbByte s b) ha.1
    exact ⟨hb.1, hb.2.trans ha.2⟩

theorem readStep_pos (r : XofReader) (h : r.pos < r.rate_in_bytes) :
    (readStep r).1.pos < (readStep r).1.rate_in_bytes ∧
    (readStep r).1.rate_in_bytes = r.rate_in_bytes := by
  unfold readStep
  by_cases hc : r.pos + 1 = r.rate_in_bytes
  · simp only [if_pos hc]
    exact ⟨by omega, trivial⟩
  · simp only [if_neg hc]
    exact ⟨by omega, trivial⟩

theorem read_pos_invariant : ∀ (n : Nat) (r : XofReader), r.pos < r.rate_in_bytes →
    (r.read n).1.pos < (r.read n).1.rate_in_bytes ∧
    (r.read n).1.rate_in_bytes = r.rate_in_bytes := by
  intro n
  induction n with
  | zero => intro r h; exact ⟨h, rfl⟩
  | succ k ih =>
    intro r h
    have ha := readStep_pos r h
    have hb := ih (readStep r).1 ha.1
    exact ⟨hb.1, hb.2.trans ha.2⟩

/-- C8: the position invariant `0 ≤ position < rate_in_bytes` holds at
construction, is preserved by every update, holds for the cursor finalize
returns, and is preserved by every read; the rate is never changed. -/
theorem position_invariant :
    (∀ sec delim : Nat, (KeccakState.new sec delim).pos = 0) ∧
    (∀ (s : KeccakState) (input : List Nat), s.pos < s.rate_in_bytes →
      (s.update input).pos < (s.update input).rate_in_bytes ∧
      (s.update input).rate_in_bytes = s.rate_in_bytes) ∧
    (∀ s : KeccakState, 0 < s.rate_in_bytes →
      s.finalize.pos < s.finalize.rate_in_bytes) ∧
    (∀ (r : XofReader) (n : Nat), r.pos < r.rate_in_bytes →
      (r.read n).1.pos < (r.read n).1.rate_in_bytes ∧
      (r.read n).1.rate_in_bytes = r.rate_in_bytes) :=
  ⟨fun _ _ => rfl,
   fun s input h => update_pos_invariant input s h,
   fun _ h => h,
   fun r n h => read_pos_invariant n r h⟩

theorem position_invariant_witness :
    (KeccakState.new 256 1).pos = 0 ∧
    (((KeccakState.new 256 1).update [1, 2, 3]).pos <
        ((KeccakState.new 256 1).update [1, 2, 3]).rate_in_bytes ∧
      ((KeccakState.new 256 1).update [1, 2, 3]).rate_in_bytes =
        (KeccakState.new 256 1).rate_in_bytes) ∧
    (KeccakState.new 256 1).finalize.pos < (KeccakState.new 256 1).finalize.rate_in_bytes ∧
    (((XofReader.mk (List.replicate 200 0) 0 136).read 5).1.pos <
        ((XofReader.mk (List.replicate 200 0) 0 136).read 5).1.rate_in_bytes ∧
      ((XofReader.mk (List.replicate 200 0) 0 136).read 5).1.rate_in_bytes =
        (XofReader.mk (List.replicate 200 0) 0 136).rate_in_bytes) :=
  ⟨position_invariant.1 256 1,
   position_invariant.2.1 (KeccakState.new 256 1) [1, 2, 3] (by decide),
   position_invariant.2.2.1 (KeccakState.new 256 1) (by decide),
   position_invariant.2.2.2 (XofReader.mk (List.replicate 200 0) 0 136) 5 (by decide)⟩

theorem keccak_f1600_length (st : List Nat) : (keccak_f1600 st).length = 200 := by
  simp [keccak_f1600, lanesToBytes]

theorem absorbByte_wf (s : KeccakState) (b : Nat) (h : WFstate s) :
    WFstate (absorbByte s b) ∧ (absorbByte s b).rate_in_bytes = s.rate_in_bytes := by
  obtain ⟨h200, hpos, hrate⟩ := h
  unfold absorbByte WFstate
  by_cases hc : s.pos + 1 = s.rate_in_bytes
  · simp only [if_pos hc]
    exact ⟨⟨keccak_f1600_length _, by omega, hrate⟩, trivial⟩
  · simp only [if_neg hc]
    exact ⟨⟨by simp [h200], by omega, hrate⟩, trivial⟩

theorem update_wf : ∀ (input : List Nat) (s : KeccakState), WFstate s →
    WFstate (s.update input) ∧ (s.update input).rate_in_bytes = s.rate_in_bytes := by
  intro input
  induction input with
  | nil => intro s h; exact ⟨h, rfl⟩
  | cons b bs ih =>
    intro s h
    have ha := absorbByte_wf s b h
    have hb := ih (absorbByte s b) ha.1
    exact ⟨hb.1, hb.2.trans ha.2⟩

theorem finalize_wf (s : KeccakState) (h : WFstate s) :
    WFreader s.finalize ∧ s.finalize.rate_in_bytes = s.rate_in_bytes := by
  obtain ⟨h200, hpos, hrate⟩ := h
  refine ⟨⟨keccak_f1600_length _, ?_, hrate⟩, rfl⟩
  show 0 < s.rate_in_bytes
  omega

theorem readStep_wf (r : XofReader) (h : WFreader r) :
    WFreader (readStep r).1 ∧ (readStep r).1.rate_in_bytes = r.rate_in_bytes := by
  obtain ⟨h200, hpos, hrate⟩ := h
  unfold readStep WFreader
  by_cases hc : r.pos + 1 = r.rate_in_bytes
  · simp only [if_pos hc]
    exact ⟨⟨keccak_f1600_length _, by omega, hrate⟩, trivial⟩
  · simp only [if_neg hc]
    exact ⟨⟨h200, by omega, hrate⟩, trivial⟩

theorem read_wf : ∀ (n : Nat) (r : XofReader), WFreader r →
    WFreader ((r.read n).1) ∧ ((r.read n).1).rate_in_bytes = r.rate_in_bytes := by
  intro n
  induction n with
  | zero => intro r h; exact ⟨h, rfl⟩
  | succ k ih =>
    intro r h
    have ha := readStep_wf r h
    have hb := ih (readStep r).1 ha.1
    exact ⟨hb.1, hb.2.trans ha.2⟩

/-- C9: totality at the public interface: every variant binding with
`128 ≤ security_bits ≤ 512` yields a well-formed context; well-formedness
puts `position` and `rate_in_bytes − 1` inside the 200-byte state buffer and
rules out underflow of `rate_in_bytes − 1`; and update, finalize and read
preserve well-formedness for arbitrary input and output lengths, so all
three operations are total. -/
theorem interface_totality :
    (∀ sec delim : Nat, 128 ≤ sec → sec ≤ 512 → WFstate (KeccakState.new sec delim)) ∧
    (∀ s : KeccakState, WFstate s →
      s.pos < s.state.length ∧ s.rate_in_bytes - 1 < s.state.length ∧
      (s.rate_in_bytes - 1) + 1 = s.rate_in_bytes) ∧
    (∀ (s : KeccakState) (input : List Nat), WFstate s → WFstate (s.update input)) ∧
    (∀ s : KeccakState, WFstate s → WFreader s.finalize) ∧
    (∀ (r : XofReader) (n : Nat), WFreader r → WFreader ((r.read n).1)) := by
  refine ⟨?_, ?_, ?_, ?_, ?_⟩
  · intro sec delim h128 h512
    refine ⟨by simp [KeccakState.new, STATE_WIDTH], ?_, ?_⟩
    · show 0 < 200 - sec / 4
      omega
    · show 200 - sec / 4 ≤ 200
      omega
  · rintro s ⟨h200, hpos, hrate⟩
    omega
  · intro s input h
    exact (update_wf input s h).1
  · intro s h
    exact (finalize_wf s h).1
  · intro r n h
    exact (read_wf n r h).1

theorem interface_totality_witness :
    WFstate (KeccakState.new 256 1) ∧
    ((KeccakState.new 256 1).pos < (KeccakState.new 256 1).state.length ∧
      (KeccakState.new 256 1).rate_in_bytes - 1 < (KeccakState.new 256 1).state.length ∧
      ((KeccakState.new 256 1).rate_in_bytes - 1) + 1 = (KeccakState.new 256 1).rate_in_bytes) ∧
    WFstate ((KeccakState.new 256 1).update [1, 2, 3]) ∧
    WFreader (KeccakState.new 256 1).finalize ∧
    WFreader (((XofReader.mk (List.replicate 200 0) 0 136).read 5).1) :=
  ⟨interface_totality.1 256 1 (by decide) (by decide),
   interface_totality.2.1 (KeccakState.new 256 1) (by decide),
   interface_totality.2.2.1 (KeccakState.new 256 1) [1, 2, 3] (by decide),
   interface_totality.2.2.2.1 (KeccakState.new 256 1) (by decide),
   interface_totality.2.2.2.2 (XofReader.mk (List.replicate 200 0) 0 136) 5 (by decide)⟩
